import Mathlib

/-!
Verification of the RNN-T streaming speech-recognition model core,
`v0.7/speech_recognition/rnnt/pytorch/model_rnnt.py`.

Tensors are shallowly embedded as nested lists of rationals; a rank-3
tensor of shape (A, B, C) is a list of A lists of B vectors of length C.
The recurrent-cell implementation (`rnn.py`) is an external collaborator
of this file and is not under the sources being verified; it is modelled
from the specification as an abstract per-element recurrence (see
`rnnStackRun`).  Everything else is translated from `model_rnnt.py`.
-/

/-- A feature vector: one innermost axis of a tensor. -/
abbrev Vec : Type := List ℚ

/-- A rank-2 tensor. -/
abbrev Mat : Type := List Vec

/-- A rank-3 tensor. -/
abbrev Tensor3 : Type := List Mat

/-- A rank-4 tensor. -/
abbrev Tensor4 : Type := List Tensor3

/-- Rectangularity of a rank-2 list-tensor: `r` rows, each of length `c`. -/
abbrev ShapeMat {α : Type} (m : List (List α)) (r c : Nat) : Prop :=
  m.length = r ∧ ∀ row ∈ m, row.length = c

/-- Rectangularity of a rank-3 list-tensor with shape `(a, b, c)`. -/
abbrev Shape3 {α : Type} (t : List (List (List α))) (a b c : Nat) : Prop :=
  t.length = a ∧ ∀ m ∈ t, ShapeMat m b c

/-- Rectangularity of a rank-4 list-tensor with shape `(a, b, c, d)`. -/
abbrev Shape4 {α : Type} (t : List (List (List (List α)))) (a b c d : Nat) : Prop :=
  t.length = a ∧ ∀ u ∈ t, Shape3 u b c d

/-- The fields of `RNNT.__init__` (model_rnnt.py, lines 44-96) that the verified
operations read.  `prediction_embed` is the embedding table
`torch.nn.Embedding(vocab_size - 1, pred_n_hidden)` viewed as a row lookup;
`cell` and `zeroState` model the external decoder Recurrent Stack
(`prediction_dec_rnn`) as one recurrence step per batch element, with the
fresh per-element zero state used when no state is supplied; `W1, b1, W2, b2`
are the two `torch.nn.Linear` layers of `_joint_net` (lines 139-149). -/
structure RNNTModel (σ : Type) where
  pred_n_hidden : Nat
  encoder_n_hidden : Nat
  joint_n_hidden : Nat
  num_classes : Nat
  prediction_embed : Nat → Vec
  cell : σ → Vec → Vec × σ
  zeroState : σ
  W1 : Mat
  b1 : Vec
  W2 : Mat
  b2 : Vec

variable {σ : Type}

/-- Modelled from the spec: one time step of the "Recurrent Stack (external
collaborator): a configurable multi-layer recurrent transform over a sequence"
(`rnn.py` is not among the verified sources).  A time step receives one vector
per batch element and advances each batch element's state independently. -/
def rnnStackStep (cell : σ → Vec → Vec × σ) (st : List σ) (x : List Vec) :
    List Vec × List σ :=
  ((List.zipWith cell st x).map Prod.fst, (List.zipWith cell st x).map Prod.snd)

/-- Modelled from the spec: the Recurrent Stack run over a time-major input
sequence — "given an input sequence and an optional initial per-layer state,
produces an output sequence and a final per-layer state". -/
def rnnStackRun (cell : σ → Vec → Vec × σ) (st : List σ) :
    List (List Vec) → List (List Vec) × List σ
  | [] => ([], st)
  | x :: xs =>
    ((rnnStackStep cell st x).1 ::
        (rnnStackRun cell (rnnStackStep cell st x).2 xs).1,
      (rnnStackRun cell (rnnStackStep cell st x).2 xs).2)

/-- The decoder Recurrent Stack instance `self.prediction_dec_rnn` as called in
`predict` (line 248): an absent state means a fresh zero state for every batch
element of the input. -/
def prediction_dec_rnn (m : RNNTModel σ) (y : List (List Vec))
    (state : Option (List σ)) : List (List Vec) × List σ :=
  rnnStackRun m.cell
    (state.getD (List.replicate (y.headD []).length m.zeroState)) y

/-- `Tensor.transpose(0, 1)`: swap the two outermost axes of a rank-3 tensor
(used at lines 247 and 249 of `predict`). -/
def transpose01 (t : Tensor3) : Tensor3 :=
  (List.range (t.headD []).length).map (fun j => t.map (fun row => row.getD j []))

/-- The `AssertionError` raised by `assert state is None` (line 232). -/
inductive PredictError where
  | assertStateNone
deriving DecidableEq

/-- `RNNT.predict` (model_rnnt.py, lines 210-251).  If `y` is absent, `state`
must be absent (line 232) and a single synthetic zero-vector step of batch
size 1 is fed (`torch.zeros((1, 1, pred_n_hidden))`, lines 234-235) in place
of the embedding lookup; otherwise each label is embedded (line 237).  The
result is transposed to time-major layout, run through the decoder Recurrent
Stack, and transposed back (lines 247-249). -/
def RNNT.predict (m : RNNTModel σ) (y : Option (List (List Nat)))
    (state : Option (List σ)) : Except PredictError (Tensor3 × List σ) :=
  match y with
  | none =>
    match state with
    | some _ => Except.error PredictError.assertStateNone
    | none =>
      let y3 : Tensor3 := [[List.replicate m.pred_n_hidden 0]]
      let yT := transpose01 y3
      let gh := prediction_dec_rnn m yT none
      Except.ok (transpose01 gh.1, gh.2)
  | some ys =>
    let y3 : Tensor3 := ys.map (fun row => row.map m.prediction_embed)
    let yT := transpose01 y3
    let gh := prediction_dec_rnn m yT state
    Except.ok (transpose01 gh.1, gh.2)

/-- One vector of `torch.nn.ReLU` (elementwise rectified linear). -/
def relu (v : Vec) : Vec := v.map (fun x => max x 0)

/-- Dot product of two vectors (excess entries of either side contribute
nothing; all verified uses are on equal lengths). -/
def dot : Vec → Vec → ℚ
  | [], _ => 0
  | _, [] => 0
  | a :: as, b :: bs => a * b + dot as bs

/-- One vector through `torch.nn.Linear`: row `j` of the output is
`dot (W j) v + b j`. -/
def linearApply (W : Mat) (b : Vec) (v : Vec) : Vec :=
  (W.zip b).map (fun rb => dot rb.1 v + rb.2)

/-- Failures of `RNNT.joint`: `expandBatch` is the `RuntimeError` raised by
`Tensor.expand` when a non-singleton batch dimension differs from the target,
`linearInFeatures` the shape error of the first `torch.nn.Linear` of
`joint_net` when the concatenated feature width differs from its
`in_features = pred_n_hidden + encoder_n_hidden`. -/
inductive JointError where
  | expandBatch
  | linearInFeatures
deriving DecidableEq

/-- `self.joint_net` (built by `_joint_net`, lines 139-149): a
`torch.nn.Sequential` of `Linear(pred_n_hidden + encoder_n_hidden,
joint_n_hidden)`, `ReLU`, an optional `Dropout` — which is the identity in
inference (eval) mode and is therefore elided — and
`Linear(joint_n_hidden, num_classes)`, applied to the innermost axis.  The
first `Linear` fails when the innermost width differs from its `in_features`;
the second `Linear`'s input width is fixed by the first layer's output and its
check is statically satisfied. -/
def jointNet (m : RNNTModel σ) (inp : Tensor4) : Except JointError Tensor4 :=
  if (((inp.headD []).headD []).headD []).length ≠
      m.pred_n_hidden + m.encoder_n_hidden then
    Except.error JointError.linearInFeatures
  else
    Except.ok (inp.map (fun t => t.map (fun mt => mt.map (fun v =>
      linearApply m.W2 m.b2 (relu (linearApply m.W1 m.b1 v))))))

/-- `RNNT.joint` (model_rnnt.py, lines 253-275).  `B, T, H = f.shape` then
`B, U_, H2 = g.shape` — note `B` is rebound to `g`'s batch size (line 264).
`f.unsqueeze(2).expand((B, T, U_, H))` errors when `f`'s batch size is neither
`B` nor 1, and silently broadcasts a singleton batch; the target `T` and `H`
are `f`'s own extents and always match.  `g.unsqueeze(1).expand((B, T, U_,
H2))` broadcasts the singleton time axis and never errors.  `torch.cat` along
the feature axis then feeds `joint_net`. -/
def RNNT.joint (m : RNNTModel σ) (f g : Tensor3) : Except JointError Tensor4 :=
  let T := (f.headD []).length
  let B := g.length
  let U' := (g.headD []).length
  if f.length = B ∨ f.length = 1 then
    let fb := if f.length = B then f else List.replicate B (f.headD [])
    let fE := fb.map (fun mt => mt.map (fun v => List.replicate U' v))
    let gE := g.map (fun mt => List.replicate T mt)
    let inp := List.zipWith
      (fun a b => List.zipWith (fun c d => List.zipWith (fun v w => v ++ w) c d) a b)
      fE gE
    jointNet m inp
  else Except.error JointError.expandBatch

/-- The broadcast-concatenate-feed-forward computation `joint` performs on
well-shaped inputs, written pointwise: entry `(b, t, u)` of the result is the
joint feed-forward network applied to the concatenation of encoder vector
`f b t` and predictor vector `g b u`. -/
def jointClosedForm (m : RNNTModel σ) (f g : Tensor3) : Tensor4 :=
  List.zipWith (fun fmt gmt => fmt.map (fun fv => gmt.map (fun gv =>
    linearApply m.W2 m.b2 (relu (linearApply m.W1 m.b1 (fv ++ gv)))))) f g

/-- `RNNT.forward` (model_rnnt.py, lines 155-170): its first statement raises
`RuntimeError`; the encode/predict/joint calls after the `raise` (lines
165-170) are unreachable, so the embedding is the error alone. -/
def RNNT.forward (m : RNNTModel σ) (x_padded : Tensor3) (x_lens : List Nat)
    (y_packed : List (List Nat)) (y_lens : List Nat) (state : Option (List σ)) :
    Except String (Tensor4 × (List Nat × List Nat)) :=
  Except.error "RNNT::forward is not currently used. It corresponds to training, where your entire output sequence is known before hand."

/-- The two `ValueError` sites of `label_collate`: the deliberate
`raise ValueError(...)` for a non-list, non-tensor input (lines 292-295), and
the error `max()` raises on an empty sequence (line 298). -/
inductive CollateError where
  | invalidType
  | emptyMax
deriving DecidableEq

/-- The input of `label_collate`: an already-padded rank-2 integer tensor, a
ragged list/tuple of label sequences, or anything else. -/
inductive LabelsInput where
  | tensor (t : List (List Int))
  | ragged (ls : List (List Int))
  | other

/-- `max(len(l) for l in labels)` (line 298) for a non-empty `labels`. -/
def max_len (ls : List (List Int)) : Nat :=
  (ls.map List.length).foldl Nat.max 0

/-- `label_collate` (model_rnnt.py, lines 278-305).  A tensor is returned
unchanged up to the `int64` coercion, which is the identity on integer
labels; a non-list, non-tensor input raises `ValueError`; a ragged list is
left-aligned into a `(batch, max_len)` array initialised with the pad value 0
(`np.full(..., fill_value=0.0)`, lines 300-302).  With an empty list, the
`max()` call at line 298 raises before any array is built. -/
def label_collate : LabelsInput → Except CollateError (List (List Int))
  | LabelsInput.tensor t => Except.ok t
  | LabelsInput.other => Except.error CollateError.invalidType
  | LabelsInput.ragged ls =>
    if ls.isEmpty then Except.error CollateError.emptyMax
    else Except.ok (ls.map (fun l => l ++ List.replicate (max_len ls - l.length) 0))

/-- Python substring containment, `needle in hay` on strings. -/
def pyStrContains (needle hay : List Char) : Bool :=
  (List.range (hay.length + 1)).any (fun i => ((hay.drop i).take needle.length) = needle)

/-- The `norm` argument passed to the encoder's two Recurrent Stacks
(line 70): `None if "norm" not in rnnt else rnnt["norm"]`, with `rnnt` the
configuration mapping, represented here by its optional `norm` entry. -/
def encoder_norm_arg (rnnt_norm : Option String) : Option String :=
  if rnnt_norm.isSome = false then none else rnnt_norm

/-- The `norm` argument passed to the predictor's Recurrent Stack (line 85):
`None if "norm" not in "rnnt" else rnnt["norm"]` — the membership test is
Python substring containment against the literal string "rnnt", not a key
lookup in the configuration mapping (the source comments "Note: This is
clearly an error"). -/
def predictor_norm_arg (rnnt_norm : Option String) : Option String :=
  if pyStrContains (String.toList "norm") (String.toList "rnnt") = false then none
  else rnnt_norm

/-- A concrete instantiation used to evaluate the model on closed inputs:
one-dimensional hidden spaces, an accumulator cell, unit weights. -/
def Mex : RNNTModel ℚ where
  pred_n_hidden := 1
  encoder_n_hidden := 1
  joint_n_hidden := 1
  num_classes := 1
  prediction_embed := fun n => [(n : ℚ) + 1]
  cell := fun s v => ([s + v.headD 0], s + v.headD 0)
  zeroState := 0
  W1 := [[1, 1]]
  b1 := [0]
  W2 := [[1]]
  b2 := [0]

/-- Claim C7: the combined-forward entry point fails deterministically with the
not-supported `RuntimeError` on every input, before any encode/predict/joint
computation. -/
theorem forward_not_supported (m : RNNTModel σ) (x_padded : Tensor3)
    (x_lens : List Nat) (y_packed : List (List Nat)) (y_lens : List Nat)
    (state : Option (List σ)) :
    RNNT.forward m x_padded x_lens y_packed y_lens state =
      Except.error "RNNT::forward is not currently used. It corresponds to training, where your entire output sequence is known before hand." :=
  rfl

/-- Claim C3: calling `predict` with absent labels and a present state fails
with the `assert state is None` invalid-argument condition; it never
proceeds. -/
theorem predict_none_state_errors (m : RNNTModel σ) (st : List σ) :
    RNNT.predict m none (some st) = Except.error PredictError.assertStateNone :=
  rfl

/-- Claim C9: the predictor's normalization argument is `None` regardless of
the configuration, because line 85 tests membership in the literal string
"rnnt"; the encoder's normalization argument (line 70) follows the
configuration. -/
theorem predictor_norm_always_none (rnnt_norm : Option String) :
    predictor_norm_arg rnnt_norm = none ∧
      encoder_norm_arg rnnt_norm = rnnt_norm := by
  constructor
  · rfl
  · cases rnnt_norm <;> simp [encoder_norm_arg]

/-- Claim C10: `label_collate` on the empty list fails with the unhandled
error of `max()` over an empty sequence, which is distinct from the
documented invalid-argument condition for non-list, non-tensor inputs. -/
theorem label_collate_empty :
    label_collate (LabelsInput.ragged []) = Except.error CollateError.emptyMax ∧
      CollateError.emptyMax ≠ CollateError.invalidType :=
  ⟨rfl, by decide⟩

/-- An element of a fold by `Nat.max` is bounded by the fold. -/
theorem le_foldl_max (xs : List Nat) (a : Nat) : a ≤ xs.foldl Nat.max a := by
  induction xs generalizing a with
  | nil => exact Nat.le_refl a
  | cons x xs ih => exact Nat.le_trans (Nat.le_max_left a x) (ih (Nat.max a x))

/-- Any member of the list is bounded by the `Nat.max` fold. -/
theorem mem_le_foldl_max (xs : List Nat) (a x : Nat) (hx : x ∈ xs) :
    x ≤ xs.foldl Nat.max a := by
  induction xs generalizing a with
  | nil => cases hx
  | cons y ys ih =>
    rcases List.mem_cons.mp hx with h | h
    · subst h
      exact Nat.le_trans (Nat.le_max_right a x) (le_foldl_max ys (Nat.max a x))
    · exact ih (Nat.max a y) h

/-- Every sequence of a ragged batch is no longer than `max_len`. -/
theorem length_le_max_len (ls : List (List Int)) (l : List Int) (hl : l ∈ ls) :
    l.length ≤ max_len ls :=
  mem_le_foldl_max _ 0 _ (List.mem_map_of_mem List.length hl)

/-- Claim C8: for a non-empty ragged batch, `label_collate` returns the
left-aligned zero-padded `(batch, max_len)` array — each row is the original
sequence followed by the pad value 0 — and an already-padded tensor is
returned unchanged. -/
theorem label_collate_spec (ls : List (List Int)) (hne : ls ≠ []) :
    label_collate (LabelsInput.ragged ls) =
      Except.ok (ls.map (fun l => l ++ List.replicate (max_len ls - l.length) 0)) ∧
    ShapeMat (ls.map (fun l => l ++ List.replicate (max_len ls - l.length) 0))
      ls.length (max_len ls) ∧
    (∀ l ∈ ls, (l ++ List.replicate (max_len ls - l.length) 0).take l.length = l) ∧
    (∀ t : List (List Int), label_collate (LabelsInput.tensor t) = Except.ok t) := by
  have hempty : ls.isEmpty = false := by
    cases ls with
    | nil => exact absurd rfl hne
    | cons a as => rfl
  refine ⟨?_, ⟨?_, ?_⟩, ?_, fun t => rfl⟩
  · simp [label_collate, hempty]
  · simp
  · intro row hrow
    rw [List.mem_map] at hrow
    obtain ⟨l, hl, rfl⟩ := hrow
    have := length_le_max_len ls l hl
    simp
    omega
  · intro l hl
    exact List.take_left l _

/-- The per-batch-element recurrence run over a sequence of input vectors,
collecting the output at every position together with the final state. -/
def runCell (cell : σ → Vec → Vec × σ) (s : σ) : List Vec → List Vec × σ
  | [] => ([], s)
  | v :: vs =>
    ((cell s v).1 :: (runCell cell (cell s v).2 vs).1,
      (runCell cell (cell s v).2 vs).2)

/-- The recurrence produces one output per input position. -/
theorem runCell_length (cell : σ → Vec → Vec × σ) (s : σ) (vs : List Vec) :
    (runCell cell s vs).1.length = vs.length := by
  induction vs generalizing s with
  | nil => rfl
  | cons v vs ih => simp [runCell, ih]

/-- A batch-1 Recurrent Stack run is the per-element recurrence. -/
theorem rnnStackRun_single (cell : σ → Vec → Vec × σ) (s : σ) (vs : List Vec) :
    rnnStackRun cell [s] (vs.map (fun v => [v])) =
      ((runCell cell s vs).1.map (fun o => [o]), [(runCell cell s vs).2]) := by
  induction vs generalizing s with
  | nil => rfl
  | cons v vs ih => simp [rnnStackRun, rnnStackStep, runCell, ih]

/-- Transposing a batch-1 rank-3 tensor splits its row into singleton steps. -/
theorem transpose01_single_row (row : Mat) :
    transpose01 [row] = row.map (fun v => [v]) := by
  apply List.ext_getElem
  · simp [transpose01]
  · intro i h1 h2
    have hi : i < row.length := by simpa [transpose01] using h1
    simp [transpose01, List.getD_eq_getElem?_getD, List.getElem?_eq_getElem hi]

/-- Transposing a sequence of singleton steps rebuilds the batch-1 row. -/
theorem transpose01_single_col (outs : Mat) (hne : outs ≠ []) :
    transpose01 (outs.map (fun o => [o])) = [outs] := by
  cases outs with
  | nil => exact absurd rfl hne
  | cons o os =>
    have hr : List.range 1 = [0] := rfl
    have hmap : ∀ (l : Mat),
        List.map ((fun (row : Mat) => row[0]?.getD []) ∘ fun (o : Vec) => [o]) l = l := by
      intro l
      induction l with
      | nil => rfl
      | cons a as ih =>
        simp only [List.map_cons, ih]
        rfl
    simp [transpose01, List.map_map, hr]
    exact hmap os

/-- Unfolding of the labels-present branch of `predict` (lines 237, 247-249):
embed, transpose to time-major, run the decoder stack, transpose back. -/
theorem predict_some_eq (m : RNNTModel σ) (ys : List (List Nat))
    (state : Option (List σ)) :
    RNNT.predict m (some ys) state =
      Except.ok
        (transpose01 (prediction_dec_rnn m
          (transpose01 (ys.map (fun row => row.map m.prediction_embed))) state).1,
         (prediction_dec_rnn m
          (transpose01 (ys.map (fun row => row.map m.prediction_embed))) state).2) :=
  rfl

/-- A single-label `predict` call carrying a batch-1 state advances that
state by one cell step on the label's embedding. -/
theorem predict_single_step (m : RNNTModel σ) (l : Nat) (s : σ) :
    RNNT.predict m (some [[l]]) (some [s]) =
      Except.ok ([[(m.cell s (m.prediction_embed l)).1]],
                 [(m.cell s (m.prediction_embed l)).2]) := rfl

/-- A single-label `predict` call with no state starts from the zero state. -/
theorem predict_single_none (m : RNNTModel σ) (l : Nat) :
    RNNT.predict m (some [[l]]) none =
      Except.ok ([[(m.cell m.zeroState (m.prediction_embed l)).1]],
                 [(m.cell m.zeroState (m.prediction_embed l)).2]) := rfl

/-- One decoding session driven label by label: each call feeds a single
label with the state returned by the previous call, and the single decoded
vector of each call is collected. -/
def streamingPredict (m : RNNTModel σ) : Option (List σ) → List Nat → List Vec
  | _, [] => []
  | st, l :: rest =>
    match RNNT.predict m (some [[l]]) st with
    | Except.ok (g, hid) =>
      ((g.headD []).headD []) :: streamingPredict m (some hid) rest
    | Except.error _ => []

/-- The decoded row produced by one full-sequence `predict` call over a
single label sequence with no prior state. -/
def fullDecoded (m : RNNTModel σ) (ls : List Nat) : List Vec :=
  match RNNT.predict m (some [ls]) none with
  | Except.ok (g, _) => g.headD []
  | Except.error _ => []

/-- The U + 1 incremental calls the claim describes for a length-U label
sequence: the bootstrap call `predict(None, None)` followed by one
state-threaded call per label. -/
def streamingWithBootstrap (m : RNNTModel σ) (ls : List Nat) : List Vec :=
  match RNNT.predict m none none with
  | Except.ok (g, hid) =>
    ((g.headD []).headD []) :: streamingPredict m (some hid) ls
  | Except.error _ => []

/-- A state-threaded batch-1 session computes the per-element recurrence over
the embedded labels. -/
theorem streamingPredict_single (m : RNNTModel σ) (s : σ) (ls : List Nat) :
    streamingPredict m (some [s]) ls =
      (runCell m.cell s (ls.map m.prediction_embed)).1 := by
  induction ls generalizing s with
  | nil => rfl
  | cons l rest ih => simp [streamingPredict, predict_single_step, ih, runCell]

/-- A full-sequence batch-1 `predict` call computes the per-element
recurrence from the zero state over the embedded labels. -/
theorem predict_full_single (m : RNNTModel σ) (l : Nat) (rest : List Nat) :
    RNNT.predict m (some [l :: rest]) none =
      Except.ok
        ([(runCell m.cell m.zeroState ((l :: rest).map m.prediction_embed)).1],
         [(runCell m.cell m.zeroState ((l :: rest).map m.prediction_embed)).2]) := by
  have hne : (runCell m.cell m.zeroState ((l :: rest).map m.prediction_embed)).1 ≠ [] := by
    intro h
    have hl := runCell_length m.cell m.zeroState ((l :: rest).map m.prediction_embed)
    rw [h] at hl
    simp at hl
  have hrow := transpose01_single_row ((l :: rest).map m.prediction_embed)
  have h1 : [l :: rest].map (fun row => row.map m.prediction_embed) =
      [(l :: rest).map m.prediction_embed] := rfl
  have hst : List.replicate
      ((((l :: rest).map m.prediction_embed).map (fun v => [v])).headD []).length
      m.zeroState = [m.zeroState] := rfl
  rw [predict_some_eq, h1, hrow]
  simp only [prediction_dec_rnn, Option.getD_none]
  rw [hst, rnnStackRun_single]
  dsimp only
  rw [transpose01_single_col _ hne]

/-- Claim C2 (amended): for every label sequence, one full-sequence `predict`
call with no prior state produces, position by position, exactly the decoded
vectors of the state-threaded session that feeds one label per call — one
call per label, the first with no state. -/
theorem predict_streaming_equiv (m : RNNTModel σ) (ls : List Nat) :
    streamingPredict m none ls = fullDecoded m ls := by
  cases ls with
  | nil => rfl
  | cons l rest =>
    simp only [streamingPredict, predict_single_none, fullDecoded, predict_full_single]
    simp [streamingPredict_single, runCell]

/-- Claim C2 counterexample: with the bootstrap call `predict(None, None)`
counted as one of the claimed U + 1 incremental calls, the incremental
decoded vectors already differ from the full-sequence call's decoded vectors
for the one-label sequence `[0]`: the session emits two vectors where the
full-sequence call emits one, so the two decoded sequences are not
identical. -/
theorem streaming_bootstrap_counterexample :
    (streamingWithBootstrap Mex [0]).length = 2 ∧ (fullDecoded Mex [0]).length = 1 ∧
      streamingWithBootstrap Mex [0] ≠ fullDecoded Mex [0] := by
  refine ⟨by decide, by decide, ?_⟩
  intro h
  have := congrArg List.length h
  simp at this
  revert this
  decide

/-- Claim C1 counterexample: for the label tensor `[[0, 1]]` of shape (1, 2),
`predict` with no prior state returns a decoded output with label-position
extent 2, not the claimed 2 + 1. -/
theorem predict_full_extent_counterexample :
    (RNNT.predict Mex (some [[0, 1]]) none).toOption.map
        (fun p => (p.1.headD []).length) = some 2 ∧ (2 : Nat) ≠ 2 + 1 := by
  decide

/-- Claim C4: `predict(None, None)` feeds one synthetic zero-vector step of
batch size 1 directly to the decoder stack — no embedding lookup — and
returns that single decoded vector, of shape (1, 1, pred_n_hidden), together
with the advanced state. -/
theorem predict_bootstrap (m : RNNTModel σ)
    (hc : ∀ s v, ((m.cell s v).1).length = m.pred_n_hidden) :
    RNNT.predict m none none =
      Except.ok ([[(m.cell m.zeroState (List.replicate m.pred_n_hidden 0)).1]],
                 [(m.cell m.zeroState (List.replicate m.pred_n_hidden 0)).2]) ∧
    Shape3 ([[(m.cell m.zeroState (List.replicate m.pred_n_hidden 0)).1]] : Tensor3)
      1 1 m.pred_n_hidden := by
  refine ⟨rfl, rfl, ?_⟩
  intro mt hmt
  rw [List.mem_singleton] at hmt
  subst hmt
  refine ⟨rfl, ?_⟩
  intro v hv
  rw [List.mem_singleton] at hv
  subst hv
  exact hc _ _

/-- Witness for `predict_bootstrap` at the concrete model. -/
theorem predict_bootstrap_witness :
    RNNT.predict Mex none none =
      Except.ok ([[(Mex.cell Mex.zeroState (List.replicate Mex.pred_n_hidden 0)).1]],
                 [(Mex.cell Mex.zeroState (List.replicate Mex.pred_n_hidden 0)).2]) ∧
    Shape3 ([[(Mex.cell Mex.zeroState (List.replicate Mex.pred_n_hidden 0)).1]] : Tensor3)
      1 1 Mex.pred_n_hidden :=
  predict_bootstrap Mex (fun s v => rfl)

/-- Every element of a `zipWith` comes from a pair of members. -/
theorem exists_of_mem_zipWith {α β γ : Type} {h : α → β → γ} {l1 : List α}
    {l2 : List β} {c : γ} (hc : c ∈ List.zipWith h l1 l2) :
    ∃ a ∈ l1, ∃ b ∈ l2, c = h a b := by
  induction l1 generalizing l2 with
  | nil => simp at hc
  | cons a as ih =>
    cases l2 with
    | nil => simp at hc
    | cons b bs =>
      rw [List.zipWith_cons_cons] at hc
      rcases List.mem_cons.mp hc with h1 | h1
      · exact ⟨a, by simp, b, by simp, h1⟩
      · obtain ⟨a', ha', b', hb', rfl⟩ := ih h1
        exact ⟨a', by simp [ha'], b', by simp [hb'], rfl⟩

/-- A `getD` lookup within bounds is a member of the list. -/
theorem getD_mem_of_lt {α : Type} (l : List α) (j : Nat) (d : α)
    (h : j < l.length) : l.getD j d ∈ l := by
  rw [List.getD_eq_getElem?_getD, List.getElem?_eq_getElem h]
  exact List.getElem_mem h

/-- The Recurrent Stack emits one output step per input step. -/
theorem rnnStackRun_fst_length (cell : σ → Vec → Vec × σ) (st : List σ)
    (xs : List (List Vec)) : (rnnStackRun cell st xs).1.length = xs.length := by
  induction xs generalizing st with
  | nil => rfl
  | cons x xs ih => simp [rnnStackRun, ih]

/-- Batch and width preservation of the Recurrent Stack: from a state of `b`
elements over steps of `b` elements, with a cell of output width `H`, every
output step has `b` vectors of width `H` and the final state has `b`
elements. -/
theorem rnnStackRun_shape (cell : σ → Vec → Vec × σ) (H b : Nat)
    (hc : ∀ s v, ((cell s v).1).length = H) :
    ∀ (xs : List (List Vec)) (st : List σ), st.length = b →
      (∀ x ∈ xs, x.length = b) →
      (∀ o ∈ (rnnStackRun cell st xs).1, o.length = b ∧ ∀ v ∈ o, v.length = H) ∧
        (rnnStackRun cell st xs).2.length = b := by
  intro xs
  induction xs with
  | nil =>
    intro st hst _
    refine ⟨?_, hst⟩
    intro o ho
    simp [rnnStackRun] at ho
  | cons x xs ih =>
    intro st hst hall
    have hx : x.length = b := hall x (List.mem_cons_self x xs)
    have hstep1 : (rnnStackStep cell st x).1.length = b := by
      simp [rnnStackStep, hst, hx]
    have hstep2 : (rnnStackStep cell st x).2.length = b := by
      simp [rnnStackStep, hst, hx]
    have hwidth : ∀ v ∈ (rnnStackStep cell st x).1, v.length = H := by
      intro v hv
      simp only [rnnStackStep] at hv
      rw [List.mem_map] at hv
      obtain ⟨p, hp, rfl⟩ := hv
      obtain ⟨s, _, w, _, rfl⟩ := exists_of_mem_zipWith hp
      exact hc s w
    obtain ⟨ihmem, ihst⟩ := ih (rnnStackStep cell st x).2 hstep2
      (fun x' hx' => hall x' (List.mem_cons_of_mem x hx'))
    constructor
    · intro o ho
      simp only [rnnStackRun, List.mem_cons] at ho
      rcases ho with rfl | ho'
      · exact ⟨hstep1, hwidth⟩
      · exact ihmem o ho'
    · simpa [rnnStackRun] using ihst

/-- Transposing a rectangular `(a, b, _)` tensor gives a `(b, a, _)` tensor. -/
theorem transpose01_shape (t : Tensor3) (a b : Nat) (ha : 0 < a)
    (h1 : t.length = a) (h2 : ∀ r ∈ t, r.length = b) :
    (transpose01 t).length = b ∧ ∀ r ∈ transpose01 t, r.length = a := by
  cases t with
  | nil =>
    simp at h1
    omega
  | cons r0 tl =>
    have hr0 : r0.length = b := h2 r0 (List.mem_cons_self r0 tl)
    constructor
    · simp [transpose01, hr0]
    · intro r hr
      simp only [transpose01] at hr
      rw [List.mem_map] at hr
      obtain ⟨j, hj, rfl⟩ := hr
      simpa using h1

/-- Transposition preserves the width of the innermost vectors. -/
theorem transpose01_mem_width (t : Tensor3) (b H : Nat)
    (h2 : ∀ r ∈ t, r.length = b) (h3 : ∀ r ∈ t, ∀ v ∈ r, v.length = H) :
    ∀ r ∈ transpose01 t, ∀ v ∈ r, v.length = H := by
  intro r hr v hv
  simp only [transpose01] at hr
  rw [List.mem_map] at hr
  obtain ⟨j, hj, rfl⟩ := hr
  rw [List.mem_range] at hj
  rw [List.mem_map] at hv
  obtain ⟨row, hrow, rfl⟩ := hv
  have hjb : j < b := by
    cases t with
    | nil => cases hrow
    | cons r0 tl =>
      have h := h2 r0 (List.mem_cons_self r0 tl)
      simp only [List.headD_cons] at hj
      omega
  have hjrow : j < row.length := by
    rw [h2 row hrow]
    exact hjb
  exact h3 row hrow _ (getD_mem_of_lt row j [] hjrow)

/-- Claim C1 (amended): for a label tensor of shape `(B, U)` with `B, U ≥ 1`
and no prior state, `predict` succeeds and the decoded output has shape
`(B, U, pred_n_hidden)` — the label-position extent equals the input label
extent; the extra synthetic position exists only in the separate
`predict(None, None)` bootstrap call. -/
theorem predict_full_shape (m : RNNTModel σ) (y : List (List Nat)) (B U : Nat)
    (hB : 0 < B) (hU : 0 < U) (hy : ShapeMat y B U)
    (hc : ∀ s v, ((m.cell s v).1).length = m.pred_n_hidden) :
    ∃ g hid, RNNT.predict m (some y) none = Except.ok (g, hid) ∧
      Shape3 g B U m.pred_n_hidden ∧ hid.length = B := by
  have hy3len : (y.map (fun row => row.map m.prediction_embed)).length = B := by
    simp [hy.1]
  have hy3rows : ∀ r ∈ y.map (fun row => row.map m.prediction_embed),
      r.length = U := by
    intro r hr
    rw [List.mem_map] at hr
    obtain ⟨row, hrow, rfl⟩ := hr
    simp [hy.2 row hrow]
  have hT := transpose01_shape (y.map (fun row => row.map m.prediction_embed))
    B U hB hy3len hy3rows
  have hstlen : (List.replicate
      ((transpose01 (y.map (fun row => row.map m.prediction_embed))).headD []).length
      m.zeroState).length = B := by
    cases hyT : transpose01 (y.map (fun row => row.map m.prediction_embed)) with
    | nil =>
      have := hT.1
      rw [hyT] at this
      simp at this
      omega
    | cons r rs =>
      have hrB : r.length = B := by
        refine hT.2 r ?_
        rw [hyT]
        exact List.mem_cons_self r rs
      simp [hrB]
  have hrun := rnnStackRun_shape m.cell m.pred_n_hidden B hc
    (transpose01 (y.map (fun row => row.map m.prediction_embed)))
    (List.replicate
      ((transpose01 (y.map (fun row => row.map m.prediction_embed))).headD []).length
      m.zeroState)
    hstlen hT.2
  refine ⟨_, _, predict_some_eq m y none, ?_, ?_⟩
  · simp only [prediction_dec_rnn, Option.getD_none]
    have hGlen : (rnnStackRun m.cell
        (List.replicate
          ((transpose01 (y.map (fun row => row.map m.prediction_embed))).headD []).length
          m.zeroState)
        (transpose01 (y.map (fun row => row.map m.prediction_embed)))).1.length = U := by
      rw [rnnStackRun_fst_length]
      exact hT.1
    have hTT := transpose01_shape _ U B hU hGlen (fun o ho => (hrun.1 o ho).1)
    refine ⟨hTT.1, ?_⟩
    intro mt hmt
    refine ⟨hTT.2 mt hmt, ?_⟩
    exact transpose01_mem_width _ B m.pred_n_hidden
      (fun o ho => (hrun.1 o ho).1) (fun o ho => (hrun.1 o ho).2) mt hmt
  · simp only [prediction_dec_rnn, Option.getD_none]
    exact hrun.2

/-- Witness for `predict_full_shape` at the concrete model and the label
tensor `[[0, 1]]` of shape (1, 2). -/
theorem predict_full_shape_witness :
    ∃ g hid, RNNT.predict Mex (some [[0, 1]]) none = Except.ok (g, hid) ∧
      Shape3 g 1 2 Mex.pred_n_hidden ∧ hid.length = 1 :=
  predict_full_shape Mex [[0, 1]] 1 2 (by decide) (by decide) (by decide)
    (fun s v => rfl)

/-- `zipWith` against a right `replicate` of the left list's length is a map. -/
theorem zipWith_replicate_right {α β γ : Type} (f : α → β → γ) (l : List α)
    (b : β) (n : Nat) (h : l.length = n) :
    List.zipWith f l (List.replicate n b) = l.map (fun a => f a b) := by
  induction l generalizing n with
  | nil => simp
  | cons a as ih =>
    cases n with
    | zero => simp at h
    | succ n =>
      simp only [List.replicate_succ, List.zipWith_cons_cons, List.map_cons]
      rw [ih n (by simpa using h)]

/-- `zipWith` against a left `replicate` of the right list's length is a map. -/
theorem zipWith_replicate_left {α β γ : Type} (f : α → β → γ) (a : α)
    (l : List β) (n : Nat) (h : l.length = n) :
    List.zipWith f (List.replicate n a) l = l.map (fun b => f a b) := by
  induction l generalizing n with
  | nil => simp
  | cons b bs ih =>
    cases n with
    | zero => simp at h
    | succ n =>
      simp only [List.replicate_succ, List.zipWith_cons_cons, List.map_cons]
      rw [ih n (by simpa using h)]

/-- Pointwise-equal zip functions give equal `zipWith` results. -/
theorem zipWith_congr_mem {α β γ : Type} (f g : α → β → γ) (l1 : List α)
    (l2 : List β) (h : ∀ a ∈ l1, ∀ b ∈ l2, f a b = g a b) :
    List.zipWith f l1 l2 = List.zipWith g l1 l2 := by
  induction l1 generalizing l2 with
  | nil => simp
  | cons a as ih =>
    cases l2 with
    | nil => simp
    | cons b bs =>
      simp only [List.zipWith_cons_cons]
      rw [h a (by simp) b (by simp),
        ih bs (fun a' ha' b' hb' => h a' (by simp [ha']) b' (by simp [hb']))]

/-- The width of a `Linear` output is the number of (weight-row, bias) pairs. -/
theorem length_linearApply (W : Mat) (b v : Vec) :
    (linearApply W b v).length = min W.length b.length := by
  simp [linearApply]

/-- On rectangular inputs, the expand-and-concatenate steps of `joint`
produce, at position `(b, t, u)`, the concatenation of encoder vector
`f b t` and predictor vector `g b u`. -/
theorem joint_inp_eq (f g : Tensor3) (T U : Nat)
    (hfT : ∀ mt ∈ f, mt.length = T) (hgU : ∀ mt ∈ g, mt.length = U) :
    List.zipWith
        (fun a b => List.zipWith (fun c d => List.zipWith (fun v w => v ++ w) c d) a b)
        (f.map (fun mt => mt.map (fun v => List.replicate U v)))
        (g.map (fun mt => List.replicate T mt)) =
      List.zipWith
        (fun fmt gmt => fmt.map (fun fv => gmt.map (fun gv => fv ++ gv))) f g := by
  rw [List.zipWith_map]
  apply zipWith_congr_mem
  intro a ha b hb
  rw [List.zipWith_map_left, zipWith_replicate_right _ _ _ _ (hfT a ha)]
  apply List.map_congr_left
  intro c hc
  exact zipWith_replicate_left _ _ _ _ (hgU b hb)

/-- Mapping the joint feed-forward network over the broadcast-concatenated
tensor gives the pointwise closed form. -/
theorem map_net_zipWith (m : RNNTModel σ) (f g : Tensor3) :
    (List.zipWith
        (fun fmt gmt => fmt.map (fun fv => gmt.map (fun gv => fv ++ gv))) f g).map
        (fun t => t.map (fun mt => mt.map (fun v =>
          linearApply m.W2 m.b2 (relu (linearApply m.W1 m.b1 v))))) =
      jointClosedForm m f g := by
  rw [List.map_zipWith]
  simp only [jointClosedForm]
  apply zipWith_congr_mem
  intro a ha b hb
  simp [List.map_map, Function.comp]

/-- Claim C5: on rectangular inputs of shapes `(B, T, encoder_n_hidden)` and
`(B, U, pred_n_hidden)` with equal batch sizes, `joint` succeeds and equals
the pointwise closed form — broadcast along the new label-position and time
axes, concatenate along the feature axis, first `Linear`, rectified-linear,
dropout as the identity at inference, second `Linear` — and the logits have
shape exactly `(B, T, U, num_classes)`. -/
theorem joint_spec (m : RNNTModel σ) (f g : Tensor3) (B T U : Nat)
    (hB : 0 < B) (hT : 0 < T) (hU : 0 < U)
    (hf : Shape3 f B T m.encoder_n_hidden) (hg : Shape3 g B U m.pred_n_hidden)
    (hW2 : m.W2.length = m.num_classes) (hb2 : m.b2.length = m.num_classes) :
    RNNT.joint m f g = Except.ok (jointClosedForm m f g) ∧
      Shape4 (jointClosedForm m f g) B T U m.num_classes := by
  obtain ⟨hfl, hfm⟩ := hf
  obtain ⟨hgl, hgm⟩ := hg
  have hfT : ∀ mt ∈ f, mt.length = T := fun mt hmt => (hfm mt hmt).1
  have hgU : ∀ mt ∈ g, mt.length = U := fun mt hmt => (hgm mt hmt).1
  have hshape : Shape4 (jointClosedForm m f g) B T U m.num_classes := by
    refine ⟨?_, ?_⟩
    · simp [jointClosedForm, hfl, hgl]
    · intro t ht
      obtain ⟨a, ha, b, hb, rfl⟩ := exists_of_mem_zipWith ht
      refine ⟨by simp [hfT a ha], ?_⟩
      intro mt hmt
      rw [List.mem_map] at hmt
      obtain ⟨fv, hfv, rfl⟩ := hmt
      refine ⟨by simp [hgU b hb], ?_⟩
      intro v hv
      rw [List.mem_map] at hv
      obtain ⟨gv, hgv, rfl⟩ := hv
      rw [length_linearApply, hW2, hb2]
      exact Nat.min_self _
  refine ⟨?_, hshape⟩
  have hcond : f.length = g.length := by rw [hfl, hgl]
  cases f with
  | nil =>
    simp at hfl
    omega
  | cons fm ftl =>
  cases g with
  | nil =>
    simp at hgl
    omega
  | cons gm gtl =>
  have hfmT : fm.length = T := hfT fm (List.mem_cons_self fm ftl)
  have hgmU : gm.length = U := hgU gm (List.mem_cons_self gm gtl)
  cases fm with
  | nil =>
    simp at hfmT
    omega
  | cons fv fmt =>
  cases gm with
  | nil =>
    simp at hgmU
    omega
  | cons gv gmt =>
  have hfvE : fv.length = m.encoder_n_hidden :=
    (hfm _ (List.mem_cons_self _ _)).2 fv (List.mem_cons_self fv fmt)
  have hgvP : gv.length = m.pred_n_hidden :=
    (hgm _ (List.mem_cons_self _ _)).2 gv (List.mem_cons_self gv gmt)
  simp only [RNNT.joint, List.headD_cons]
  rw [if_pos (Or.inl hcond), if_pos hcond, hfmT, hgmU]
  rw [joint_inp_eq _ _ T U hfT hgU]
  have hhead : ((((List.zipWith
      (fun fmt gmt => fmt.map (fun fv => gmt.map (fun gv => fv ++ gv)))
      ((fv :: fmt) :: ftl) ((gv :: gmt) :: gtl)).headD []).headD []).headD
        []).length = m.encoder_n_hidden + m.pred_n_hidden := by
    simp [List.zipWith_cons_cons, hfvE, hgvP]
  simp only [jointNet]
  rw [hhead, Nat.add_comm m.encoder_n_hidden m.pred_n_hidden,
    if_neg (fun h => h rfl)]
  exact congrArg Except.ok (map_net_zipWith m _ _)

/-- Witness for `joint_spec` at the concrete model with encoded shape
(1, 1, 1) and decoded shape (1, 1, 1). -/
theorem joint_spec_witness :
    RNNT.joint Mex [[[1]]] [[[2]]] =
        Except.ok (jointClosedForm Mex [[[1]]] [[[2]]]) ∧
      Shape4 (jointClosedForm Mex [[[1]]] [[[2]]]) 1 1 1 Mex.num_classes :=
  joint_spec Mex [[[1]]] [[[2]]] 1 1 1 (by decide) (by decide) (by decide)
    (by decide) (by decide) rfl rfl

/-- Claim C6 counterexample: with an encoded batch size of 1 and a decoded
batch size of 2 — mismatched batch sizes — `joint` silently broadcasts the
singleton batch and returns a result instead of failing. -/
theorem joint_silent_broadcast_counterexample :
    ([[[(1 : ℚ)]]] : Tensor3).length = 1 ∧
      ([[[(2 : ℚ)]], [[(3 : ℚ)]]] : Tensor3).length = 2 ∧
      (RNNT.joint Mex [[[1]]] [[[2]], [[3]]]).toOption.isSome = true := by
  refine ⟨rfl, rfl, ?_⟩
  decide

/-- Claim C6 (amended): `joint` fails fast when the batch sizes of its two
inputs differ and the encoded batch size is not 1 (and the first `Linear`
rejects concatenated widths that differ from its input width); but when the
encoded batch size is exactly 1 it silently broadcasts it to the decoded
batch size and returns a result. -/
theorem joint_batch_mismatch_errors (m : RNNTModel σ) (f g : Tensor3)
    (h1 : f.length ≠ g.length) (h2 : f.length ≠ 1) :
    RNNT.joint m f g = Except.error JointError.expandBatch := by
  have hcond : ¬(f.length = g.length ∨ f.length = 1) := by
    rintro (h | h)
    · exact h1 h
    · exact h2 h
  simp only [RNNT.joint]
  rw [if_neg hcond]

/-- Witness for `joint_batch_mismatch_errors`: encoded batch 2 against
decoded batch 1. -/
theorem joint_batch_mismatch_errors_witness :
    RNNT.joint Mex [[[1]], [[2]]] [[[3]]] = Except.error JointError.expandBatch :=
  joint_batch_mismatch_errors Mex [[[1]], [[2]]] [[[3]]] (by decide) (by decide)

/-- Witness for `label_collate_spec` at the documented concrete scenario:
`[[1, 2, 3], [4, 5]]` collates to `[[1, 2, 3], [4, 5, 0]]` of shape (2, 3). -/
theorem label_collate_spec_witness :
    label_collate (LabelsInput.ragged [[1, 2, 3], [4, 5]]) =
        Except.ok [[1, 2, 3], [4, 5, 0]] ∧
      ShapeMat ([[1, 2, 3], [4, 5, 0]] : List (List Int)) 2 3 := by
  have h := label_collate_spec [[1, 2, 3], [4, 5]] (by decide)
  exact ⟨h.1, h.2.1⟩
